import Mathlib

/-!
Shallow embedding of the featurescope pipeline
(src/python/src/featurescope/featurizer.py) and proofs about the
behaviour of its row-source resolvers and column normalizer.

Modelling conventions:
* pandas cell values are modelled by `Value` (numbers as exact rationals,
  everything else as strings);
* a `DataFrame` is an index (pandas row labels, numeric here) together
  with an ordered association list of named columns;
* the filesystem is modelled by the list of file names in the output
  directory (`Option (List String)`, `none` = directory does not exist);
* external collaborators (Pillow decoding/encoding, skimage
  `regionprops_table`) are abstracted: image payloads are opaque tokens
  and thumbnails/crops are tagged strings — no claim inspects their
  pixel content;
* raised Python exceptions are modelled by `RunError`; every run
  returns the list of files it wrote alongside its result, so that
  "raised before any file was written" is expressible.
-/

namespace Featurescope

/-- A pandas cell value: numeric (modelled exactly as a rational) or
non-numeric (modelled as a string token). -/
inductive Value where
  | num (q : ℚ)
  | str (s : String)
deriving DecidableEq, Repr

/-- `True` on numeric cells. -/
def isNum : Value → Bool
  | .num _ => true
  | .str _ => false

/-- A pandas DataFrame: a (numeric) row index and an ordered list of
named columns. A column is numeric (its dtype is included in
`select_dtypes(include=[np.number])`) iff all its cells are numeric. -/
structure DataFrame where
  index : List ℚ
  cols : List (String × List Value)
deriving DecidableEq, Repr

/-- A column has numeric dtype iff every cell is numeric. -/
def isNumericCol (vs : List Value) : Bool := vs.all isNum

/-- Column lookup, `df[name]` (first column with that name). -/
def getCol (cols : List (String × List Value)) (name : String) :
    Option (List Value) :=
  (cols.find? (fun c => c.1 == name)).map (fun c => c.2)

/-- Column assignment, `df[name] = vs`: replace in place when the column
exists (pandas keeps its position), otherwise append it at the end. -/
def setCol (cols : List (String × List Value)) (name : String)
    (vs : List Value) : List (String × List Value) :=
  if cols.any (fun c => c.1 == name) then
    cols.map (fun c => if c.1 == name then (name, vs) else c)
  else cols ++ [(name, vs)]

/-- The numeric cells of a column, as rationals. -/
def toNums (vs : List Value) : List ℚ :=
  vs.filterMap (fun v => match v with | .num q => some q | .str _ => none)

/-- Minimum of a list of rationals (pandas `Series.min`); `0` on the
empty list, a case no claim reaches. -/
def listMin : List ℚ → ℚ
  | [] => 0
  | x :: xs => xs.foldl min x

/-- Maximum of a list of rationals (pandas `Series.max`). -/
def listMax : List ℚ → ℚ
  | [] => 0
  | x :: xs => xs.foldl max x

/-- Rescaling of one cell: `(v - mn) / denom * (1 - margin) + margin/2`
(featurizer.py lines 79–83), applied cell-wise; non-numeric cells are
untouched (they do not occur in the columns this is applied to). -/
def rescaleVal (m mn denom : ℚ) : Value → Value
  | .num q => .num ((q - mn) / denom * (1 - m) + m / 2)
  | .str s => .str s

/-- Per-column min–max rescaling with margin, including the
`ranges.replace(0, 1)` guard (featurizer.py lines 72–83). -/
def rescaleCol (m : ℚ) (vs : List Value) : List Value :=
  vs.map (rescaleVal m (listMin (toNums vs))
    (if listMax (toNums vs) - listMin (toNums vs) = 0 then 1
     else listMax (toNums vs) - listMin (toNums vs)))

/-- The entry a column of `df` becomes in the rescaling pass
(featurizer.py line 79): numeric columns are rescaled, the others are
left as they are. -/
def rescEntry (m : ℚ) (c : String × List Value) : String × List Value :=
  if isNumericCol c.2 then (c.1, rescaleCol m c.2) else c

/-- `_normalize_numeric_columns` (featurizer.py lines 58–94).
The function works on a copy of its argument (`df.copy()`, line 65).
If no column is numeric it returns the copy unchanged (lines 69–70).
Otherwise it rescales every numeric column, assigns `id = df.index`
(line 86), keeps only the columns that are numeric after that
(lines 89–90) and re-attaches `thumbnail` and `image_file`
(lines 91–92).  `none` models the `KeyError` raised by those two
lookups when the column is absent. -/
def normalizeNumericColumns (df : DataFrame) (m : ℚ) : Option DataFrame :=
  if (df.cols.filter (fun c => isNumericCol c.2)).isEmpty then some df
  else
    let rescaled := df.cols.map (rescEntry m)
    let withId := setCol rescaled "id" (df.index.map Value.num)
    let numeric2 := withId.filter (fun c => isNumericCol c.2)
    match getCol withId "thumbnail", getCol withId "image_file" with
    | some th, some im =>
        some { index := df.index,
               cols := setCol (setCol numeric2 "thumbnail" th) "image_file" im }
    | _, _ => none

/-- `VALID_IMAGE_FORMATS` (featurizer.py line 16). -/
def VALID_IMAGE_FORMATS : List String := ["tif", "tiff", "png", "jpeg", "jpg"]

/-- Whether file name `f` is matched by the glob pattern `*.{ext}`,
i.e. `f` ends with `"." ++ ext` (stated on the underlying character
lists so that it evaluates by kernel reduction). -/
def hasExt (f ext : String) : Bool :=
  ("." ++ ext).data.isSuffixOf f.data

/-- Whether a file name has one of the recognized image extensions. -/
def isRecognizedImageFile (f : String) : Bool :=
  VALID_IMAGE_FORMATS.any (fun ext => hasExt f ext)

/-- `_get_image_files` (featurizer.py lines 125–129): for each extension
of the allow-list in turn, extend the result with the directory entries
matching `*.{ext}` in directory-listing order. -/
def getImageFiles (files : List String) : List String :=
  VALID_IMAGE_FORMATS.flatMap (fun ext => files.filter (fun f => hasExt f ext))

/-- The rescaled numeric columns of a table, in order of appearance. -/
def rescaledNumericCols (df : DataFrame) (m : ℚ) : List (String × List Value) :=
  df.cols.filterMap
    (fun c => if isNumericCol c.2 then some (c.1, rescaleCol m c.2) else none)

/-- The error conditions of the pipeline (spec §7 taxonomy; in the code
they are all `RuntimeError` / `FileNotFoundError` / `TypeError` /
`KeyError` / `IndexError` exceptions). -/
inductive RunError where
  | notFound
  | precautionaryRefusal
  | missingLabelColumn
  | labelMismatch
  | featurizerContractViolation
  | missingReferencedFile
  | missingFilenameColumn
  | missingImageColumn
  | keyError
  | indexError
deriving DecidableEq, Repr

/-- `_setup_images_path` (featurizer.py lines 105–122).  The directory
is modelled by the list of its file names (`none`: it does not exist
and is created empty).  With `ensureEmpty`, a directory holding at
least one recognized image file is refused (`RuntimeError`, modelled
as `precautionaryRefusal`). -/
def setupImagesPath (dir : Option (List String))
    (ensureEmpty ensureExists : Bool) : Except RunError (List String) :=
  match dir with
  | none =>
      if ensureExists then .error .notFound
      else
        if ensureEmpty then
          if (getImageFiles []).length > 0 then .error .precautionaryRefusal
          else .ok []
        else .ok []
  | some files =>
      if ensureEmpty then
        if (getImageFiles files).length > 0 then .error .precautionaryRefusal
        else .ok files
      else .ok files

/-- The value a Python featurizer call returns: either a mapping
(`dict`), or some non-mapping value such as `None` or a list. -/
inductive FeatResult where
  | mapping (kvs : List (String × Value))
  | notMapping
deriving DecidableEq, Repr

/-- Python `dict` assignment `r[k] = v`: replace in place when the key
exists (dicts keep insertion order), else append. -/
def setEntry (r : List (String × Value)) (k : String) (v : Value) :
    List (String × Value) :=
  if r.any (fun e => e.1 == k) then
    r.map (fun e => if e.1 == k then (k, v) else e)
  else r ++ [(k, v)]

/-- Python `dict` lookup `r[k]`. -/
def lookupKey (r : List (String × Value)) (k : String) : Option Value :=
  (r.find? (fun e => e.1 == k)).map (fun e => e.2)

/-- Modelled from the external Pillow collaborator: `_encode_thumbnail`
(featurizer.py lines 46–55) is a deterministic, pure encoding of the
decoded image; the image payload is an opaque token, so the encoding
is modelled as an injective tagging of that token. -/
def encodeThumbnail (img : String) : Value := Value.str ("thumb:" ++ img)

/-- Thumbnail of an image held in a table cell (opaque token). -/
def encodeThumbVal : Value → Value
  | .str s => encodeThumbnail s
  | .num _ => Value.str "thumb:num"

/-- The per-file loop of `apply_to_images` (featurizer.py lines
175–182): decode the file, call the featurizer on the decoded array
(plus the extra named parameters, absorbed into the closure), then run
`measurements["thumbnail"] = ...`.  When the featurizer's return value
is not a mapping, that item assignment raises `TypeError`, the
`FeaturizerContractViolation` condition of spec §7. -/
def buildRecords (files : List String) (featurizer : String → FeatResult) :
    Except RunError (List (List (String × Value))) :=
  match files with
  | [] => .ok []
  | f :: rest =>
    match featurizer f with
    | .notMapping => .error .featurizerContractViolation
    | .mapping kvs =>
      match buildRecords rest featurizer with
      | .error e => .error e
      | .ok rs => .ok (setEntry kvs "thumbnail" (encodeThumbnail f) :: rs)

/-- Column values of key `k` across all records; `none` models the
`KeyError` raised when a later record misses a key of the first one. -/
def collectKey (records : List (List (String × Value))) (k : String) :
    Option (List Value) :=
  records.mapM (fun r => lookupKey r k)

/-- The loop `for key in records[0].keys(): df[key] = [record[key] for
record in records]` (featurizer.py lines 184–185 and 254–255). -/
def assignRecordCols (cols : List (String × List Value)) (keys : List String)
    (records : List (List (String × Value))) :
    Except RunError (List (String × List Value)) :=
  match keys with
  | [] => .ok cols
  | k :: ks =>
    match collectKey records k with
    | none => .error .keyError
    | some vals => assignRecordCols (setCol cols k vals) ks records

/-- `apply_to_images` (featurizer.py lines 132–189).  The result pairs
the list of files the run wrote (in order) with its outcome: `ok none`
models the early `return` when no recognized image file is found,
`ok (some df)` the normal completion (the write of `features.csv` is
recorded in the first component). -/
def applyToImages (dir : Option (List String))
    (featurizer : String → FeatResult) :
    List String × Except RunError (Option DataFrame) :=
  match setupImagesPath dir false false with
  | .error e => ([], .error e)
  | .ok files =>
    let imageFiles := getImageFiles files
    if imageFiles.length = 0 then ([], .ok none)
    else
      match buildRecords imageFiles featurizer with
      | .error e => ([], .error e)
      | .ok records =>
        match records with
        | [] => ([], .error .indexError)
        | r0 :: _ =>
          match assignRecordCols [("image_file", imageFiles.map Value.str)]
              (r0.map Prod.fst) records with
          | .error e => ([], .error e)
          | .ok cols =>
            match normalizeNumericColumns
                ⟨(List.range imageFiles.length).map (fun i => (i : ℚ)), cols⟩
                (1/5) with
            | none => ([], .error .keyError)
            | some dfN => (["features.csv"], .ok (some dfN))

/-- `np.unique`: the distinct values of an array, in increasing order. -/
def npUniqueNat (xs : List Nat) : List Nat :=
  (List.insertionSort (fun a b => a ≤ b) xs).dedup

/-- `np.unique` over the (rational-valued) cells of a table column. -/
def npUniqueQ (xs : List ℚ) : List ℚ :=
  (List.insertionSort (fun a b => a ≤ b) xs).dedup

/-- The positive labels of a labelled image (flattened pixel list), in
increasing order: one region per positive label. -/
def posLabels (labelImage : List Nat) : List Nat :=
  (npUniqueNat labelImage).filter (fun v => v ≠ 0)

/-- Zero-padded sequential crop file name, `f"{idx:03d}.png"`. -/
def fileName3 (n : Nat) : String :=
  (if n < 10 then "00" ++ toString n
   else if n < 100 then "0" ++ toString n
   else toString n) ++ ".png"

/-- Modelled from the external skimage collaborator:
`regionprops_table(label_image, intensity_image, properties)` returns
one row per positive label of the labelled image, in increasing label
order, with a column per requested property.  The `label` column holds
the label; `image_intensity` holds the per-object crop, an opaque token
here; any other property value is an opaque numeric placeholder — no
claim inspects property or crop contents. -/
def regionpropsTable (labelImage : List Nat) (props : List String) : DataFrame :=
  { index := (List.range (posLabels labelImage).length).map (fun i => (i : ℚ)),
    cols := props.map (fun p =>
      if p = "label" then
        (p, (posLabels labelImage).map (fun l => Value.num (l : ℚ)))
      else if p = "image_intensity" then
        (p, (posLabels labelImage).map (fun l => Value.str ("crop:" ++ toString l)))
      else
        (p, (posLabels labelImage).map (fun l => Value.num (l : ℚ)))) }

/-- The properties-list fix-up of `apply_to_label_image` (featurizer.py
lines 218–225): a missing list becomes `["label", "image_intensity"]`;
otherwise `label` and then `image_intensity` are appended when absent
(both membership tests read the original list, lines 222 and 224). -/
def updatedProperties (properties : Option (List String)) : List String :=
  match properties with
  | none => ["label", "image_intensity"]
  | some ps =>
    let ps1 := if ps.contains "label" then ps else ps ++ ["label"]
    if ps.contains "image_intensity" then ps1 else ps1 ++ ["image_intensity"]

/-- `apply_to_label_image` (featurizer.py lines 191–259): refuse a
non-empty output directory, compute region properties, save one crop
file per object, optionally run the featurizer on each crop, attach
thumbnail and file name, assign the record columns and normalize. -/
def applyToLabelImage (dir : Option (List String)) (labelImage : List Nat)
    (properties : Option (List String))
    (featurizer : Option (Value → List (String × Value))) :
    List String × Except RunError DataFrame :=
  match setupImagesPath dir true false with
  | .error e => ([], .error e)
  | .ok _ =>
    let df0 := regionpropsTable labelImage (updatedProperties properties)
    let crops := (getCol df0.cols "image_intensity").getD []
    let cropFiles := (List.range crops.length).map fileName3
    let records := crops.enum.map (fun p =>
      let ms : List (String × Value) :=
        match featurizer with
        | none => []
        | some f => f p.2
      setEntry (setEntry ms "thumbnail" (encodeThumbVal p.2))
        "image_file" (Value.str (fileName3 p.1)))
    match records with
    | [] => (cropFiles, .error .indexError)
    | r0 :: _ =>
      match assignRecordCols df0.cols (r0.map Prod.fst) records with
      | .error e => (cropFiles, .error e)
      | .ok cols =>
        match normalizeNumericColumns ⟨df0.index, cols⟩ (1/5) with
        | none => (cropFiles, .error .keyError)
        | some dfN => (cropFiles ++ ["features.csv"], .ok dfN)

/-- Cell of a column at a row position. -/
def valueAt (vs : List Value) (j : Nat) : Value := vs.getD j (Value.str "")

/-- `df.merge(df_, on="label")` (featurizer.py line 397): inner join on
the `label` column, keeping the left table's row order; the right table
(from `regionprops_table`) has unique keys, so each left row picks the
matching right row.  The merged table gets a fresh default range
index. -/
def mergeOnLabel (left right : DataFrame) : DataFrame :=
  let lLabels := (getCol left.cols "label").getD []
  let rLabels := (getCol right.cols "label").getD []
  let pairs := (List.range lLabels.length).filterMap (fun i =>
    match rLabels.findIdx? (fun rv => rv == valueAt lLabels i) with
    | some j => some (i, j)
    | none => none)
  { index := (List.range pairs.length).map (fun i => (i : ℚ)),
    cols := left.cols.map (fun c => (c.1, pairs.map (fun p => valueAt c.2 p.1)))
      ++ (right.cols.filter (fun c => c.1 != "label")).map
          (fun c => (c.1, pairs.map (fun p => valueAt c.2 p.2))) }

/-- `apply_from_label_image_df` (featurizer.py lines 341–414): refuse a
non-empty output directory; require a `label` column; compare the
distinct non-zero label values of the table with the positive labels of
the labelled image by count (line 375) and then test every raw table
label value for membership in the image's positive labels (lines
379–383); merge in crops when `image_intensity` is absent; save the
crops, attach thumbnails and file names, normalize and save.  The first
component lists the files written, in order. -/
def applyFromLabelImageDf (df : DataFrame) (dir : Option (List String))
    (labelImage : List Nat) :
    List String × Except RunError DataFrame :=
  match setupImagesPath dir true false with
  | .error e => ([], .error e)
  | .ok _ =>
    if df.cols.any (fun c => c.1 == "label") then
      let uniques := (npUniqueNat labelImage).filter (fun v => v ≠ 0)
      let labelVals := (getCol df.cols "label").getD []
      let uniquesDf := (npUniqueQ (toNums labelVals)).filter (fun v => v ≠ 0)
      if uniques.length ≠ uniquesDf.length then ([], .error .labelMismatch)
      else if labelVals.any
          (fun v => !(uniques.any (fun u => v == Value.num (u : ℚ)))) then
        ([], .error .labelMismatch)
      else
        let df1 := if df.cols.any (fun c => c.1 == "image_intensity") then df
          else mergeOnLabel df
            (regionpropsTable labelImage ["label", "image_intensity"])
        let crops := (getCol df1.cols "image_intensity").getD []
        let cropFiles := (List.range crops.length).map fileName3
        let df2 : DataFrame :=
          ⟨df1.index,
           setCol (setCol df1.cols "thumbnail" (crops.map encodeThumbVal))
             "image_file" (cropFiles.map Value.str)⟩
        match normalizeNumericColumns df2 (1/5) with
        | none => (cropFiles, .error .keyError)
        | some dfN => (cropFiles ++ ["features.csv"], .ok dfN)
    else ([], .error .missingLabelColumn)

/-- The outcome of a run of `apply_from_images_df`: files written,
warnings printed, and the result. -/
structure ImagesDfRun where
  writes : List String
  warnings : List String
  result : Except RunError DataFrame
deriving Repr

/-- `apply_from_images_df` (featurizer.py lines 261–339).  When the
output directory already holds recognized images, a filename column is
required: its values must resolve inside the directory and an
`image_column`, if also given, is ignored with a warning (lines
293–297).  When the directory holds none, an array column is required:
its images are saved under sequential names and a `filename_column`,
if also given, is ignored with a warning (lines 320–323). -/
def applyFromImagesDf (df : DataFrame) (dir : Option (List String))
    (filenameColumn imageColumn : Option String) : ImagesDfRun :=
  match setupImagesPath dir false false with
  | .error e => ⟨[], [], .error e⟩
  | .ok files =>
    let imageFiles := getImageFiles files
    if imageFiles.length > 0 then
      match filenameColumn with
      | none => ⟨[], [], .error .missingFilenameColumn⟩
      | some fc =>
        let warns := if imageColumn.isSome then ["image_column ignored"] else []
        let names := (getCol df.cols fc).getD []
        if names.any (fun v =>
            match v with
            | .str s => !(imageFiles.contains s)
            | .num _ => true) then
          ⟨[], warns, .error .missingReferencedFile⟩
        else
          let df2 : DataFrame :=
            ⟨df.index,
             setCol (setCol df.cols "image_file" names) "thumbnail"
               (names.map encodeThumbVal)⟩
          match normalizeNumericColumns df2 (1/5) with
          | none => ⟨[], warns, .error .keyError⟩
          | some dfN => ⟨["features.csv"], warns, .ok dfN⟩
    else
      match imageColumn with
      | none => ⟨[], [], .error .missingImageColumn⟩
      | some ic =>
        let warns :=
          if filenameColumn.isSome then ["filename_column ignored"] else []
        let arrs := (getCol df.cols ic).getD []
        let seqNames := (List.range arrs.length).map fileName3
        let df2 : DataFrame :=
          ⟨df.index,
           setCol (setCol df.cols "image_file" (seqNames.map Value.str))
             "thumbnail" (arrs.map encodeThumbVal)⟩
        match normalizeNumericColumns df2 (1/5) with
        | none => ⟨seqNames, warns, .error .keyError⟩
        | some dfN => ⟨seqNames ++ ["features.csv"], warns, .ok dfN⟩

/-- Heap model of one call `_normalize_numeric_columns(heap[a])`: lists
of `DataFrame`s are Python object stores, addresses are positions.
Line 65 (`df_normed = df.copy()`) allocates a fresh object and every
subsequent column assignment targets that copy, so the call appends the
result as a new object and returns its address; the argument object is
never written. -/
def normalizeCall (heap : List DataFrame) (a : Nat) (m : ℚ) :
    Option (List DataFrame × Nat) :=
  match heap.get? a with
  | none => none
  | some df =>
    match normalizeNumericColumns df m with
    | none => none
    | some out => some (heap ++ [out], heap.length)

/-- Heap model of the properties fix-up of `apply_to_label_image`
(featurizer.py lines 217–225) when a list is passed: line 221
(`properties_ = properties`) aliases the caller's list object and the
`.append` calls mutate it in place, so after the call the caller's
address holds the updated list. -/
def propsHeapAfterCall (heap : List (List String)) (a : Nat) :
    Option (List (List String)) :=
  (heap.get? a).map (fun ps => heap.set a (updatedProperties (some ps)))

/-- A two-row table with one numeric feature column, as produced by the
row-source resolvers (default index, string-valued auxiliary columns). -/
def exDfC1 : DataFrame :=
  { index := [0, 1],
    cols := [("x", [Value.num 1, Value.num 3]),
             ("thumbnail", [Value.str "t1", Value.str "t2"]),
             ("image_file", [Value.str "f1", Value.str "f2"])] }

/-- A one-row table whose pandas index is `[5]`, not the default range
`[0]`: the row's 0-based position is `0` but its index label is `5`. -/
def exDfC2 : DataFrame :=
  { index := [5],
    cols := [("x", [Value.num 3]),
             ("thumbnail", [Value.str "t"]),
             ("image_file", [Value.str "f"])] }

/-- A table whose `label` column is `[0, 1, 2]`: its positive label
values are `{1, 2}`. -/
def exDfC3 : DataFrame :=
  ⟨[0, 1, 2], [("label", [Value.num 0, Value.num 1, Value.num 2])]⟩

/-- A one-row table with both a filename column `fn` and an array
column `img`. -/
def exDfC5 : DataFrame :=
  ⟨[0], [("fn", [Value.str "a.png"]), ("img", [Value.str "arrA"])]⟩

deriving instance DecidableEq for Except

/-! ### Helper lemmas about list minima and maxima -/

theorem foldl_min_le_init (xs : List ℚ) (a : ℚ) : xs.foldl min a ≤ a := by
  induction xs generalizing a with
  | nil => exact le_refl a
  | cons x t ih => exact le_trans (ih (min a x)) (min_le_left a x)

theorem foldl_min_le_mem (xs : List ℚ) (a b : ℚ) (hb : b ∈ xs) :
    xs.foldl min a ≤ b := by
  induction xs generalizing a with
  | nil => cases hb
  | cons x t ih =>
    rcases List.mem_cons.mp hb with h | h
    · subst h
      exact le_trans (foldl_min_le_init t (min a b)) (min_le_right a b)
    · exact ih (min a x) h

theorem listMin_le_mem (xs : List ℚ) (b : ℚ) (hb : b ∈ xs) : listMin xs ≤ b := by
  cases xs with
  | nil => cases hb
  | cons x t =>
    rcases List.mem_cons.mp hb with h | h
    · subst h; exact foldl_min_le_init t b
    · exact foldl_min_le_mem t x b h

theorem init_le_foldl_max (xs : List ℚ) (a : ℚ) : a ≤ xs.foldl max a := by
  induction xs generalizing a with
  | nil => exact le_refl a
  | cons x t ih => exact le_trans (le_max_left a x) (ih (max a x))

theorem mem_le_foldl_max (xs : List ℚ) (a b : ℚ) (hb : b ∈ xs) :
    b ≤ xs.foldl max a := by
  induction xs generalizing a with
  | nil => cases hb
  | cons x t ih =>
    rcases List.mem_cons.mp hb with h | h
    · subst h
      exact le_trans (le_max_right a b) (init_le_foldl_max t (max a b))
    · exact ih (max a x) h

theorem mem_le_listMax (xs : List ℚ) (b : ℚ) (hb : b ∈ xs) : b ≤ listMax xs := by
  cases xs with
  | nil => cases hb
  | cons x t =>
    rcases List.mem_cons.mp hb with h | h
    · subst h; exact init_le_foldl_max t b
    · exact mem_le_foldl_max t x b h

/-! ### Helper lemmas about columns and rescaling -/

theorem isNum_rescaleVal (m mn denom : ℚ) (v : Value) :
    isNum (rescaleVal m mn denom v) = isNum v := by
  cases v <;> rfl

theorem all_isNum_map (f : Value → Value) (hf : ∀ v, isNum (f v) = isNum v)
    (vs : List Value) : (vs.map f).all isNum = vs.all isNum := by
  induction vs with
  | nil => rfl
  | cons v t ih => simp only [List.map_cons, List.all_cons, hf, ih]

theorem isNumericCol_rescaleCol (m : ℚ) (vs : List Value) :
    isNumericCol (rescaleCol m vs) = isNumericCol vs := by
  unfold rescaleCol isNumericCol
  exact all_isNum_map _ (isNum_rescaleVal _ _ _) vs

theorem isNumericCol_map_num (qs : List ℚ) :
    isNumericCol (qs.map Value.num) = true := by
  induction qs with
  | nil => rfl
  | cons q t ih => simp only [isNumericCol, List.map_cons, List.all_cons, isNum] at ih ⊢; simp [ih]

theorem rescEntry_fst (m : ℚ) (c : String × List Value) :
    (rescEntry m c).1 = c.1 := by
  unfold rescEntry
  split <;> rfl

theorem map_rescEntry_fst (m : ℚ) (cols : List (String × List Value)) :
    (cols.map (rescEntry m)).map Prod.fst = cols.map Prod.fst := by
  induction cols with
  | nil => rfl
  | cons c t ih => simp [rescEntry_fst, ih]

theorem getCol_map_rescEntry (m : ℚ) (cols : List (String × List Value))
    (name : String) :
    getCol (cols.map (rescEntry m)) name =
      (getCol cols name).map
        (fun vs => if isNumericCol vs then rescaleCol m vs else vs) := by
  induction cols with
  | nil => rfl
  | cons c t ih =>
    by_cases h : c.1 = name
    · simp [getCol, List.find?_cons, rescEntry_fst, h]
      unfold rescEntry
      split <;> simp_all
    · simp only [getCol, List.map_cons, List.find?_cons] at *
      rw [show ((rescEntry m c).1 == name) = false by
            simp [rescEntry_fst, h],
          show (c.1 == name) = false by simp [h]]
      exact ih

theorem filter_map_rescEntry (m : ℚ) (cols : List (String × List Value)) :
    (cols.map (rescEntry m)).filter (fun c => isNumericCol c.2) =
      cols.filterMap
        (fun c => if isNumericCol c.2 then some (c.1, rescaleCol m c.2)
                  else none) := by
  induction cols with
  | nil => rfl
  | cons c t ih =>
    by_cases h : isNumericCol c.2
    · simp only [List.map_cons, List.filter_cons, List.filterMap_cons]
      rw [show rescEntry m c = (c.1, rescaleCol m c.2) by unfold rescEntry; simp [h]]
      simp only [h, isNumericCol_rescaleCol, if_true, ih]
    · simp only [List.map_cons, List.filter_cons, List.filterMap_cons]
      rw [show rescEntry m c = c by unfold rescEntry; simp [h]]
      simp only [h, if_neg, ih]
      simp [h]

theorem setCol_of_not_mem (cols : List (String × List Value)) (name : String)
    (vs : List Value) (h : name ∉ cols.map Prod.fst) :
    setCol cols name vs = cols ++ [(name, vs)] := by
  have hany : cols.any (fun c => c.1 == name) = false := by
    rw [List.any_eq_false]
    intro c hc
    simp only [beq_iff_eq]
    exact fun hceq => h (hceq ▸ List.mem_map_of_mem Prod.fst hc)
  simp only [setCol, hany, Bool.false_eq_true, if_false]

theorem getCol_append (l₁ l₂ : List (String × List Value)) (name : String) :
    getCol (l₁ ++ l₂) name = ((getCol l₁ name).or (getCol l₂ name)) := by
  unfold getCol
  rw [List.find?_append]
  cases List.find? (fun c => c.1 == name) l₁ <;> simp

theorem getCol_of_mem_nodup (cols : List (String × List Value)) (name : String)
    (vs : List Value) (hnd : (cols.map Prod.fst).Nodup)
    (hmem : (name, vs) ∈ cols) : getCol cols name = some vs := by
  induction cols with
  | nil => cases hmem
  | cons c t ih =>
    rcases List.mem_cons.mp hmem with h | h
    · subst h; simp [getCol, List.find?_cons]
    · have hne : ¬(c.1 = name) := by
        intro hc
        have : name ∈ t.map Prod.fst := List.mem_map_of_mem Prod.fst h
        simp only [List.map_cons, List.nodup_cons] at hnd
        exact hnd.1 (hc ▸ this)
      simp only [getCol, List.find?_cons, show (c.1 == name) = false by simp [hne]]
      exact ih (by simp only [List.map_cons, List.nodup_cons] at hnd; exact hnd.2) h

theorem not_mem_rescaledNumericCols_names (df : DataFrame) (m : ℚ)
    (hnd : (df.cols.map Prod.fst).Nodup) (n : String) (vsn : List Value)
    (hget : getCol df.cols n = some vsn) (hn : isNumericCol vsn = false) :
    n ∉ (rescaledNumericCols df m).map Prod.fst := by
  intro hmem
  rcases List.mem_map.mp hmem with ⟨e, he, hfst⟩
  rcases List.mem_filterMap.mp he with ⟨c, hc, hcite⟩
  by_cases hnumc : isNumericCol c.2
  · rw [if_pos hnumc] at hcite
    have hc1 : c.1 = n := by
      have := congrArg (fun o => (Option.map Prod.fst o).getD "") hcite
      simpa [hfst] using this
    have hcpair : (n, c.2) ∈ df.cols := by
      have : c = (n, c.2) := by
        cases c; simp_all
      exact this ▸ hc
    have := getCol_of_mem_nodup df.cols n c.2 hnd hcpair
    rw [hget] at this
    have hvs : c.2 = vsn := by
      injection this with h
      exact h.symm
    rw [hvs] at hnumc
    exact absurd hnumc (by simp [hn])
  · rw [if_neg hnumc] at hcite
    exact Option.noConfusion hcite

/-- Master structure lemma for `_normalize_numeric_columns` in the
well-formed case: at least one numeric column, fresh `id`, and
non-numeric `thumbnail` and `image_file` columns present.  The output
is the rescaled numeric columns, then `id` bound to the row index (not
the row position), then the two auxiliary columns. -/
theorem normalize_eq (df : DataFrame) (m : ℚ)
    (hnd : (df.cols.map Prod.fst).Nodup)
    (hnum : df.cols.filter (fun c => isNumericCol c.2) ≠ [])
    (hid : "id" ∉ df.cols.map Prod.fst)
    (th im : List Value)
    (hth : getCol df.cols "thumbnail" = some th) (hthn : isNumericCol th = false)
    (him : getCol df.cols "image_file" = some im) (himn : isNumericCol im = false) :
    normalizeNumericColumns df m = some
      { index := df.index,
        cols := rescaledNumericCols df m
          ++ [("id", df.index.map Value.num), ("thumbnail", th),
              ("image_file", im)] } := by
  have hidr : "id" ∉ (df.cols.map (rescEntry m)).map Prod.fst := by
    rw [map_rescEntry_fst]; exact hid
  have hwithId : setCol (df.cols.map (rescEntry m)) "id" (df.index.map Value.num)
      = df.cols.map (rescEntry m) ++ [("id", df.index.map Value.num)] :=
    setCol_of_not_mem _ _ _ hidr
  have hgth : getCol (df.cols.map (rescEntry m) ++ [("id", df.index.map Value.num)])
      "thumbnail" = some th := by
    rw [getCol_append, getCol_map_rescEntry, hth]
    simp [hthn]
  have hgim : getCol (df.cols.map (rescEntry m) ++ [("id", df.index.map Value.num)])
      "image_file" = some im := by
    rw [getCol_append, getCol_map_rescEntry, him]
    simp [himn]
  have hfilter : (df.cols.map (rescEntry m) ++ [("id", df.index.map Value.num)]).filter
      (fun c => isNumericCol c.2)
      = rescaledNumericCols df m ++ [("id", df.index.map Value.num)] := by
    rw [List.filter_append, filter_map_rescEntry]
    simp [List.filter_cons, isNumericCol_map_num, rescaledNumericCols]
  have hthnot : "thumbnail" ∉ (rescaledNumericCols df m
      ++ [("id", df.index.map Value.num)]).map Prod.fst := by
    simp only [List.map_append, List.mem_append]
    rintro (h | h)
    · exact not_mem_rescaledNumericCols_names df m hnd _ th hth hthn h
    · simp at h
  have hsetth : setCol (rescaledNumericCols df m ++ [("id", df.index.map Value.num)])
      "thumbnail" th
      = rescaledNumericCols df m ++ [("id", df.index.map Value.num)]
        ++ [("thumbnail", th)] :=
    setCol_of_not_mem _ _ _ hthnot
  have himnot : "image_file" ∉ ((rescaledNumericCols df m
      ++ [("id", df.index.map Value.num)]) ++ [("thumbnail", th)]).map Prod.fst := by
    simp only [List.map_append, List.mem_append]
    rintro ((h | h) | h)
    · exact not_mem_rescaledNumericCols_names df m hnd _ im him himn h
    · simp at h
    · simp at h
  have hsetim : setCol ((rescaledNumericCols df m ++ [("id", df.index.map Value.num)])
      ++ [("thumbnail", th)]) "image_file" im
      = ((rescaledNumericCols df m ++ [("id", df.index.map Value.num)])
        ++ [("thumbnail", th)]) ++ [("image_file", im)] :=
    setCol_of_not_mem _ _ _ himnot
  have hguard : ((df.cols.filter (fun c => isNumericCol c.2)).isEmpty = true) = False := by
    simp [List.isEmpty_iff, hnum]
  simp only [normalizeNumericColumns, hguard, if_false, hwithId, hgth, hgim,
    hfilter, hsetth, hsetim]
  simp

theorem mem_toNums (vs : List Value) (q : ℚ) (hv : Value.num q ∈ vs) :
    q ∈ toNums vs :=
  List.mem_filterMap.mpr ⟨Value.num q, hv, rfl⟩

theorem mem_setCol_ne (cols : List (String × List Value)) (n' : String)
    (v : List Value) (n : String) (ws : List Value) (hne : n ≠ n')
    (hmem : (n, ws) ∈ setCol cols n' v) : (n, ws) ∈ cols := by
  unfold setCol at hmem
  split at hmem
  · rcases List.mem_map.mp hmem with ⟨c, hc, hceq⟩
    by_cases h : (c.1 == n') = true
    · rw [if_pos h] at hceq
      have : n' = n := congrArg Prod.fst hceq
      exact absurd this.symm hne
    · rw [if_neg h] at hceq
      exact hceq ▸ hc
  · rcases List.mem_append.mp hmem with h | h
    · exact h
    · have : (n, ws) = (n', v) := by simpa using h
      exact absurd (congrArg Prod.fst this) hne

theorem snd_eq_of_mem_nodup (cols : List (String × List Value))
    (hnd : (cols.map Prod.fst).Nodup) (n : String) (a b : List Value)
    (ha : (n, a) ∈ cols) (hb : (n, b) ∈ cols) : a = b := by
  have h1 := getCol_of_mem_nodup cols n a hnd ha
  have h2 := getCol_of_mem_nodup cols n b hnd hb
  rw [h1] at h2
  injection h2

/-- Arithmetic core of C1: a rescaled numeric column lies in
`[m/2, 1 - m/2]` when its range is non-zero, and is constantly `m/2`
when its range is zero. -/
theorem rescaleCol_range (m : ℚ) (vs : List Value) (hnum : isNumericCol vs = true)
    (hm0 : 0 ≤ m) (hm1 : m ≤ 1) :
    (listMin (toNums vs) ≠ listMax (toNums vs) →
      ∀ w ∈ rescaleCol m vs, ∃ q, w = Value.num q ∧ m/2 ≤ q ∧ q ≤ 1 - m/2) ∧
    (listMin (toNums vs) = listMax (toNums vs) →
      ∀ w ∈ rescaleCol m vs, w = Value.num (m/2)) := by
  constructor
  · intro hne w hw
    rcases List.mem_map.mp hw with ⟨v, hv, hresc⟩
    have hvnum : isNum v = true := by
      have := List.all_eq_true.mp hnum v hv
      simpa using this
    obtain ⟨q₀, rfl⟩ : ∃ q₀, v = Value.num q₀ := by
      cases v with
      | num q => exact ⟨q, rfl⟩
      | str s => simp [isNum] at hvnum
    have hqmem : q₀ ∈ toNums vs := mem_toNums vs q₀ hv
    have hmn : listMin (toNums vs) ≤ q₀ := listMin_le_mem _ _ hqmem
    have hmx : q₀ ≤ listMax (toNums vs) := mem_le_listMax _ _ hqmem
    have hlt : listMin (toNums vs) < listMax (toNums vs) :=
      lt_of_le_of_ne (le_trans hmn hmx) hne
    have hdpos : (0:ℚ) < listMax (toNums vs) - listMin (toNums vs) := by linarith
    have hden : (if listMax (toNums vs) - listMin (toNums vs) = 0 then 1
        else listMax (toNums vs) - listMin (toNums vs))
        = listMax (toNums vs) - listMin (toNums vs) := by
      rw [if_neg (by linarith)]
    refine ⟨(q₀ - listMin (toNums vs)) /
        (listMax (toNums vs) - listMin (toNums vs)) * (1 - m) + m / 2, ?_, ?_, ?_⟩
    · rw [← hresc]
      simp [rescaleVal, hden]
    · have ht0 : 0 ≤ (q₀ - listMin (toNums vs)) /
          (listMax (toNums vs) - listMin (toNums vs)) :=
        div_nonneg (by linarith) (le_of_lt hdpos)
      nlinarith
    · have ht1 : (q₀ - listMin (toNums vs)) /
          (listMax (toNums vs) - listMin (toNums vs)) ≤ 1 :=
        (div_le_one hdpos).mpr (by linarith)
      have ht0 : 0 ≤ (q₀ - listMin (toNums vs)) /
          (listMax (toNums vs) - listMin (toNums vs)) :=
        div_nonneg (by linarith) (le_of_lt hdpos)
      nlinarith
  · intro heq w hw
    rcases List.mem_map.mp hw with ⟨v, hv, hresc⟩
    have hvnum : isNum v = true := by
      have := List.all_eq_true.mp hnum v hv
      simpa using this
    obtain ⟨q₀, rfl⟩ : ∃ q₀, v = Value.num q₀ := by
      cases v with
      | num q => exact ⟨q, rfl⟩
      | str s => simp [isNum] at hvnum
    have hqmem : q₀ ∈ toNums vs := mem_toNums vs q₀ hv
    have hmn : listMin (toNums vs) ≤ q₀ := listMin_le_mem _ _ hqmem
    have hmx : q₀ ≤ listMax (toNums vs) := mem_le_listMax _ _ hqmem
    have hq0 : q₀ = listMin (toNums vs) := by
      rw [heq] at hmn ⊢
      exact le_antisymm hmx hmn
    rw [← hresc]
    simp only [rescaleVal]
    rw [hq0]
    simp

/-- C1: For every run of the Column Normalizer with margin fraction `m`
(default 0.2) and every column it selects as numeric for rescaling (not
counting the `id` column it appends afterwards, nor the `thumbnail` /
`image_file` auxiliary columns): if the column's minimum differs from
its maximum, every output value of that column lies in
`[m/2, 1 - m/2]` inclusive; if the column's minimum equals its maximum,
every output value of that column equals `m/2` exactly. -/
theorem normalizer_output_in_margin_range (df : DataFrame) (m : ℚ)
    (out : DataFrame) (name : String) (vs : List Value)
    (hm0 : 0 ≤ m) (hm1 : m ≤ 1)
    (hnd : (df.cols.map Prod.fst).Nodup)
    (hrun : normalizeNumericColumns df m = some out)
    (hin : (name, vs) ∈ df.cols) (hnum : isNumericCol vs = true)
    (hnid : name ≠ "id") (hnth : name ≠ "thumbnail")
    (hnim : name ≠ "image_file") :
    ∀ ws, (name, ws) ∈ out.cols →
      (listMin (toNums vs) ≠ listMax (toNums vs) →
        ∀ w ∈ ws, ∃ q, w = Value.num q ∧ m / 2 ≤ q ∧ q ≤ 1 - m / 2) ∧
      (listMin (toNums vs) = listMax (toNums vs) →
        ∀ w ∈ ws, w = Value.num (m / 2)) := by
  intro ws hws
  have hguard : (df.cols.filter (fun c => isNumericCol c.2)).isEmpty = false := by
    simp only [List.isEmpty_eq_false_iff_exists_mem]
    exact ⟨(name, vs), List.mem_filter.mpr ⟨hin, hnum⟩⟩
  rw [normalizeNumericColumns] at hrun
  rw [hguard] at hrun
  simp only [Bool.false_eq_true, if_false] at hrun
  split at hrun
  · rename_i th im hgt hgi
    have hws0 : (name, ws) ∈ setCol (setCol ((setCol (df.cols.map (rescEntry m)) "id"
        (df.index.map Value.num)).filter (fun c => isNumericCol c.2))
        "thumbnail" th) "image_file" im := by
      rw [← Option.some.inj hrun] at hws
      exact hws
    have hws1 := mem_setCol_ne _ _ _ _ _ hnim hws0
    have hws2 := mem_setCol_ne _ _ _ _ _ hnth hws1
    have hws3 : (name, ws) ∈ setCol (df.cols.map (rescEntry m)) "id"
        (df.index.map Value.num) := (List.mem_filter.mp hws2).1
    have hws4 : (name, ws) ∈ df.cols.map (rescEntry m) :=
      mem_setCol_ne _ _ _ _ _ hnid hws3
    rcases List.mem_map.mp hws4 with ⟨c, hc, hceq⟩
    have hws5 : ws = rescaleCol m vs := by
      by_cases hcn : isNumericCol c.2 = true
      · have h1 : c.1 = name := by
          have := congrArg Prod.fst hceq
          simpa [rescEntry, hcn] using this
        have h2 : ws = rescaleCol m c.2 := by
          have := congrArg Prod.snd hceq
          simp only [rescEntry, hcn, if_true] at this
          exact this.symm
        have hcpair : (name, c.2) ∈ df.cols := by
          have : c = (name, c.2) := by cases c; simp_all
          exact this ▸ hc
        rw [h2, snd_eq_of_mem_nodup df.cols hnd name c.2 vs hcpair hin]
      · have hceq' : c = (name, ws) := by simpa [rescEntry, hcn] using hceq
        have hcpair : (name, ws) ∈ df.cols := hceq' ▸ hc
        have hwv := snd_eq_of_mem_nodup df.cols hnd name ws vs hcpair hin
        exfalso
        apply hcn
        rw [show c.2 = ws from congrArg Prod.snd hceq', hwv]
        exact hnum
    rw [hws5]
    exact rescaleCol_range m vs hnum hm0 hm1
  · exact Option.noConfusion hrun

theorem exDfC1_normSome :
    (normalizeNumericColumns exDfC1 (1/5)).isSome = true := by decide

/-- Witness for C1 at a concrete two-row table and the default margin. -/
theorem normalizer_output_in_margin_range_witness :
    ((0:ℚ) ≤ 1/5 ∧ (1:ℚ)/5 ≤ 1 ∧
      isNumericCol [Value.num 1, Value.num 3] = true) ∧
    (∀ ws, ("x", ws) ∈ ((normalizeNumericColumns exDfC1 (1/5)).get
        exDfC1_normSome).cols →
      (listMin (toNums [Value.num 1, Value.num 3]) ≠
          listMax (toNums [Value.num 1, Value.num 3]) →
        ∀ w ∈ ws, ∃ q, w = Value.num q ∧ (1:ℚ)/5 / 2 ≤ q ∧ q ≤ 1 - (1:ℚ)/5 / 2) ∧
      (listMin (toNums [Value.num 1, Value.num 3]) =
          listMax (toNums [Value.num 1, Value.num 3]) →
        ∀ w ∈ ws, w = Value.num ((1:ℚ)/5 / 2))) :=
  ⟨⟨by norm_num, by norm_num, by decide⟩,
   normalizer_output_in_margin_range exDfC1 (1/5)
     ((normalizeNumericColumns exDfC1 (1/5)).get exDfC1_normSome)
     "x" [Value.num 1, Value.num 3]
     (by norm_num) (by norm_num) (by decide)
     (Option.some_get exDfC1_normSome).symm
     (by decide) (by decide) (by decide) (by decide) (by decide)⟩

/-- Counterexample to C2: the claim says the fresh `id` column equals
the row's 0-based position even when the input's row index is not the
default range.  On a table with index `[5]` the normalizer emits
`id = [5]` (it assigns `df_normed["id"] = df_normed.index`,
featurizer.py line 86), and `5 ≠ 0`, the row's position. -/
theorem normalizer_id_is_index_not_position :
    (normalizeNumericColumns exDfC2 (1/5)).map
        (fun out => out.cols.map Prod.fst)
      = some ["x", "id", "thumbnail", "image_file"] ∧
    (normalizeNumericColumns exDfC2 (1/5)).bind
        (fun out => getCol out.cols "id")
      = some [Value.num 5] ∧
    (5 : ℚ) ≠ 0 := by
  refine ⟨by decide, by decide, by decide⟩

/-- C2 (amended): when the input table has at least one numeric column,
no column named `id`, and non-numeric `thumbnail` and `image_file`
columns, the output consists of exactly the rescaled numeric columns, a
fresh `id` column equal to the row *index label* (which is the 0-based
position only for a default range index), and the two auxiliary
columns; all other non-numeric columns are dropped.  When the input has
zero numeric columns, the table is instead returned unchanged as a copy
(no `id` is added and nothing is dropped). -/
theorem normalizer_output_columns_amended (df : DataFrame) (m : ℚ)
    (th im : List Value)
    (hnd : (df.cols.map Prod.fst).Nodup)
    (hnum : df.cols.filter (fun c => isNumericCol c.2) ≠ [])
    (hid : "id" ∉ df.cols.map Prod.fst)
    (hth : getCol df.cols "thumbnail" = some th)
    (hthn : isNumericCol th = false)
    (him : getCol df.cols "image_file" = some im)
    (himn : isNumericCol im = false) :
    normalizeNumericColumns df m = some
      { index := df.index,
        cols := rescaledNumericCols df m
          ++ [("id", df.index.map Value.num), ("thumbnail", th),
              ("image_file", im)] } ∧
    ∀ df' : DataFrame, df'.cols.filter (fun c => isNumericCol c.2) = [] →
      normalizeNumericColumns df' m = some df' :=
  ⟨normalize_eq df m hnd hnum hid th im hth hthn him himn,
   fun df' h => by simp [normalizeNumericColumns, h]⟩

/-- Witness for the amended C2 at the concrete table `exDfC2`. -/
theorem normalizer_output_columns_amended_witness :
    normalizeNumericColumns exDfC2 (1/5) = some
      { index := exDfC2.index,
        cols := rescaledNumericCols exDfC2 (1/5)
          ++ [("id", exDfC2.index.map Value.num),
              ("thumbnail", [Value.str "t"]),
              ("image_file", [Value.str "f"])] } ∧
    ∀ df' : DataFrame, df'.cols.filter (fun c => isNumericCol c.2) = [] →
      normalizeNumericColumns df' (1/5) = some df' :=
  normalizer_output_columns_amended exDfC2 (1/5)
    [Value.str "t"] [Value.str "f"]
    (by decide) (by decide) (by decide) (by decide) (by decide)
    (by decide) (by decide)

/-- C6: For every directory-scan run over a directory containing zero
files with a recognized extension, the resolver returns "no result"
(`None`) rather than raising an error, and writes no output file. -/
theorem apply_to_images_empty_dir_returns_none (files : List String)
    (featurizer : String → FeatResult) (hz : getImageFiles files = []) :
    applyToImages (some files) featurizer = ([], .ok none) := by
  simp [applyToImages, setupImagesPath, hz]

/-- Witness for C6: a directory holding only a non-image file. -/
theorem apply_to_images_empty_dir_returns_none_witness :
    getImageFiles ["readme.txt"] = [] ∧
    applyToImages (some ["readme.txt"]) (fun _ => FeatResult.notMapping)
      = ([], .ok none) :=
  ⟨by decide,
   apply_to_images_empty_dir_returns_none ["readme.txt"]
     (fun _ => FeatResult.notMapping) (by decide)⟩

/-- C4: For every directory-scan run over a directory containing at
least one recognized image file, and for every featurizer whose return
value is never a mapping, the run fails with the
`FeaturizerContractViolation` condition (in the code, the `TypeError`
raised by `measurements["thumbnail"] = ...` on a non-mapping value,
line 181) and no output file is written. -/
theorem apply_to_images_non_mapping_fails (files : List String)
    (featurizer : String → FeatResult)
    (hne : getImageFiles files ≠ [])
    (hf : ∀ s, featurizer s = .notMapping) :
    applyToImages (some files) featurizer
      = ([], .error .featurizerContractViolation) := by
  cases h : getImageFiles files with
  | nil => exact absurd h hne
  | cons f rest =>
    simp [applyToImages, setupImagesPath, h, buildRecords, hf]

/-- Witness for C4: one recognized image, a featurizer returning a
non-mapping value on every input. -/
theorem apply_to_images_non_mapping_fails_witness :
    getImageFiles ["a.png"] ≠ [] ∧
    applyToImages (some ["a.png"]) (fun _ => FeatResult.notMapping)
      = ([], .error .featurizerContractViolation) :=
  ⟨by decide,
   apply_to_images_non_mapping_fails ["a.png"] (fun _ => FeatResult.notMapping)
     (by decide) (fun _ => rfl)⟩

/-- C7: For every labelled-image-mode run (`apply_to_label_image` and
`apply_from_label_image_df`), if the output directory already contains
at least one file with a recognized image extension, the run fails
with the `PrecautionaryRefusal` condition before computing any row or
writing any file (the emptiness check of `_setup_images_path` is the
first statement of both functions, lines 215 and 363). -/
theorem label_image_modes_refuse_nonempty_dir (files : List String)
    (df : DataFrame) (labelImage : List Nat)
    (properties : Option (List String))
    (featurizer : Option (Value → List (String × Value)))
    (hne : getImageFiles files ≠ []) :
    applyToLabelImage (some files) labelImage properties featurizer
      = ([], .error .precautionaryRefusal) ∧
    applyFromLabelImageDf df (some files) labelImage
      = ([], .error .precautionaryRefusal) := by
  have hset : setupImagesPath (some files) true false
      = .error .precautionaryRefusal := by
    simp only [setupImagesPath, if_true]
    rw [if_pos (List.length_pos.mpr hne)]
  constructor
  · simp [applyToLabelImage, hset]
  · simp [applyFromLabelImageDf, hset]

/-- Witness for C7: a directory already holding `old.png`. -/
theorem label_image_modes_refuse_nonempty_dir_witness :
    getImageFiles ["old.png"] ≠ [] ∧
    (applyToLabelImage (some ["old.png"]) [0, 1] none none
       = ([], .error .precautionaryRefusal) ∧
     applyFromLabelImageDf exDfC3 (some ["old.png"]) [0, 1]
       = ([], .error .precautionaryRefusal)) :=
  ⟨by decide,
   label_image_modes_refuse_nonempty_dir ["old.png"] exDfC3 [0, 1] none none
     (by decide)⟩

/-- Counterexample to C9: the claim says the Column Normalizer mutates
the Row Table in place, so that after normalization the passed-in
table object carries the normalized content.  In the heap model, after
`normalizeCall` on the object at address 0, that object still has its
original columns `["x", "thumbnail", "image_file"]` — no `id` column —
while the normalized content (with `id`) is a separate fresh object at
address 1 (the code copies: `df_normed = df.copy()`, line 65). -/
theorem normalizer_does_not_mutate_input :
    (normalizeCall [exDfC2] 0 (1/5)).map
        (fun p => (p.1.map (fun d => d.cols.map Prod.fst), p.2))
      = some ([["x", "thumbnail", "image_file"],
               ["x", "id", "thumbnail", "image_file"]], 1) := by
  decide

/-- C9 (amended): the Column Normalizer does not mutate its input: it
works on a copy, leaves the passed-in table object unchanged in the
heap, and returns the normalized content as a separate fresh object. -/
theorem normalizer_returns_fresh_copy (heap : List DataFrame) (a : Nat)
    (m : ℚ) (heap' : List DataFrame) (r : Nat)
    (hcall : normalizeCall heap a m = some (heap', r)) :
    heap'.get? a = heap.get? a ∧ r = heap.length ∧
    ∃ df out, heap.get? a = some df ∧
      normalizeNumericColumns df m = some out ∧
      heap' = heap ++ [out] ∧ heap'.get? r = some out := by
  unfold normalizeCall at hcall
  cases hg : heap.get? a with
  | none => rw [hg] at hcall; exact Option.noConfusion hcall
  | some df =>
    rw [hg] at hcall
    have hcall' : (match normalizeNumericColumns df m with
        | none => (none : Option (List DataFrame × Nat))
        | some out => some (heap ++ [out], heap.length)) = some (heap', r) :=
      hcall
    cases hn : normalizeNumericColumns df m with
    | none => rw [hn] at hcall'; exact Option.noConfusion hcall'
    | some out =>
      rw [hn] at hcall'
      have hpair := Option.some.inj hcall'
      have hh : heap' = heap ++ [out] := (congrArg Prod.fst hpair).symm
      have hr : r = heap.length := (congrArg Prod.snd hpair).symm
      have ha : a < heap.length := by
        by_contra hge
        rw [List.get?_eq_none.mpr (Nat.le_of_not_lt hge)] at hg
        exact Option.noConfusion hg
      refine ⟨?_, hr, df, out, rfl, hn, hh, ?_⟩
      · rw [hh, List.get?_append ha]
        exact hg
      · rw [hh, hr, List.get?_concat_length]

/-- Witness for the amended C9 at a one-element heap. -/
theorem normalizer_returns_fresh_copy_witness :
    normalizeCall [exDfC5] 0 (1/5) = some ([exDfC5, exDfC5], 1) ∧
    (([exDfC5, exDfC5] : List DataFrame).get? 0 = ([exDfC5] : List DataFrame).get? 0 ∧
     (1:Nat) = ([exDfC5] : List DataFrame).length ∧
     ∃ df out, ([exDfC5] : List DataFrame).get? 0 = some df ∧
       normalizeNumericColumns df (1/5) = some out ∧
       ([exDfC5, exDfC5] : List DataFrame) = [exDfC5] ++ [out] ∧
       ([exDfC5, exDfC5] : List DataFrame).get? 1 = some out) :=
  ⟨by decide,
   normalizer_returns_fresh_copy [exDfC5] 0 (1/5) [exDfC5, exDfC5] 1 (by decide)⟩

/-- C10: For every call to `apply_to_label_image` that passes a
properties list lacking `"label"` or `"image_intensity"`, the missing
entries are appended to the caller's own list object: after the call
the caller's address holds the original list with the missing entries
appended, which differs from the list passed in (no defensive copy is
made; `properties_ = properties` on line 221 aliases the argument). -/
theorem properties_list_mutated_in_place (heap : List (List String))
    (a : Nat) (ps : List String) (hget : heap.get? a = some ps)
    (hmiss : ps.contains "label" = false ∨
      ps.contains "image_intensity" = false) :
    propsHeapAfterCall heap a
      = some (heap.set a (updatedProperties (some ps))) ∧
    (propsHeapAfterCall heap a).bind (fun h => h.get? a)
      = some (updatedProperties (some ps)) ∧
    updatedProperties (some ps)
      = (if ps.contains "label" then ps else ps ++ ["label"])
        ++ (if ps.contains "image_intensity" then []
            else ["image_intensity"]) ∧
    updatedProperties (some ps) ≠ ps := by
  have ha : a < heap.length := by
    by_contra hge
    rw [List.get?_eq_none.mpr (Nat.le_of_not_lt hge)] at hget
    exact Option.noConfusion hget
  have h1 : propsHeapAfterCall heap a
      = some (heap.set a (updatedProperties (some ps))) := by
    unfold propsHeapAfterCall
    rw [hget]
    rfl
  have hshape : updatedProperties (some ps)
      = (if ps.contains "label" then ps else ps ++ ["label"])
        ++ (if ps.contains "image_intensity" then []
            else ["image_intensity"]) := by
    unfold updatedProperties
    by_cases hl : ps.contains "label" = true <;>
      by_cases hi : ps.contains "image_intensity" = true <;>
      simp only [hl, hi, Bool.false_eq_true, if_true, if_false, List.append_nil]
  have hlen : ps.length < (updatedProperties (some ps)).length := by
    rw [hshape]
    rcases hmiss with h | h
    · rw [h, if_neg Bool.false_ne_true]
      by_cases hi : ps.contains "image_intensity" = true
      · rw [if_pos hi]
        simp only [List.length_append, List.length_cons, List.length_nil]
        omega
      · rw [if_neg hi]
        simp only [List.length_append, List.length_cons, List.length_nil]
        omega
    · rw [h, if_neg Bool.false_ne_true]
      by_cases hl : ps.contains "label" = true
      · rw [if_pos hl]
        simp only [List.length_append, List.length_cons, List.length_nil]
        omega
      · rw [if_neg hl]
        simp only [List.length_append, List.length_cons, List.length_nil]
        omega
  refine ⟨h1, ?_, hshape, ?_⟩
  · rw [h1]
    show (heap.set a (updatedProperties (some ps))).get? a
      = some (updatedProperties (some ps))
    rw [List.get?_set_eq, hget]
    rfl
  · intro hcontra
    rw [hcontra] at hlen
    exact Nat.lt_irrefl _ hlen

/-- Witness for C10: a caller's list `["area"]` lacking both required
entries. -/
theorem properties_list_mutated_in_place_witness :
    (([["area"]] : List (List String)).get? 0 = some ["area"] ∧
     (["area"] : List String).contains "label" = false) ∧
    (propsHeapAfterCall [["area"]] 0
       = some (([["area"]] : List (List String)).set 0
           (updatedProperties (some ["area"]))) ∧
     (propsHeapAfterCall [["area"]] 0).bind (fun h => h.get? 0)
       = some (updatedProperties (some ["area"])) ∧
     updatedProperties (some ["area"])
       = (if (["area"] : List String).contains "label" then ["area"]
          else ["area"] ++ ["label"])
         ++ (if (["area"] : List String).contains "image_intensity" then []
             else ["image_intensity"]) ∧
     updatedProperties (some ["area"]) ≠ ["area"]) :=
  ⟨⟨by decide, by decide⟩,
   properties_list_mutated_in_place [["area"]] 0 ["area"] (by decide)
     (Or.inl (by decide))⟩

/-! ### More lemmas about `getCol` and `setCol` -/

theorem getCol_cons_of_pos (c : String × List Value)
    (t : List (String × List Value)) (name : String)
    (h : (c.1 == name) = true) : getCol (c :: t) name = some c.2 := by
  simp [getCol, List.find?_cons, h]

theorem getCol_cons_of_neg (c : String × List Value)
    (t : List (String × List Value)) (name : String)
    (h : (c.1 == name) = false) : getCol (c :: t) name = getCol t name := by
  simp [getCol, List.find?_cons, h]

theorem getCol_mapSet (cols : List (String × List Value)) (name : String)
    (vs : List Value) (hany : cols.any (fun c => c.1 == name) = true) :
    getCol (cols.map (fun c => if c.1 == name then (name, vs) else c)) name
      = some vs := by
  induction cols with
  | nil => simp at hany
  | cons c t ih =>
    rw [List.map_cons]
    by_cases h : (c.1 == name) = true
    · rw [if_pos h]
      exact getCol_cons_of_pos (name, vs) _ name (by simp)
    · rw [if_neg h, getCol_cons_of_neg c _ name (Bool.eq_false_iff.mpr h)]
      apply ih
      rw [List.any_cons, Bool.eq_false_iff.mpr h] at hany
      simpa using hany

theorem getCol_setCol_self (cols : List (String × List Value)) (name : String)
    (vs : List Value) : getCol (setCol cols name vs) name = some vs := by
  unfold setCol
  split
  · rename_i hany
    exact getCol_mapSet cols name vs hany
  · rename_i hany
    rw [getCol_append]
    have hnone : getCol cols name = none := by
      cases hfind : List.find? (fun c => c.1 == name) cols with
      | none => simp [getCol, hfind]
      | some c =>
        exact absurd (List.any_eq_true.mpr
          ⟨c, List.mem_of_find?_eq_some hfind, List.find?_some hfind⟩) hany
    rw [hnone]
    simp [getCol]

theorem getCol_mapSet_ne (cols : List (String × List Value)) (name : String)
    (vs : List Value) (n' : String) (h : n' ≠ name) :
    getCol (cols.map (fun c => if c.1 == name then (name, vs) else c)) n'
      = getCol cols n' := by
  induction cols with
  | nil => rfl
  | cons c t ih =>
    rw [List.map_cons]
    have hname : (name == n') = false := by
      simp only [beq_eq_false_iff_ne]
      exact fun hq => h hq.symm
    by_cases hc : (c.1 == name) = true
    · have hceq : c.1 = name := eq_of_beq hc
      rw [if_pos hc, getCol_cons_of_neg (name, vs) _ n' hname,
        getCol_cons_of_neg c t n' (by rw [hceq]; exact hname)]
      exact ih
    · rw [if_neg hc]
      by_cases hcn : (c.1 == n') = true
      · rw [getCol_cons_of_pos c _ n' hcn, getCol_cons_of_pos c t n' hcn]
      · rw [getCol_cons_of_neg c _ n' (Bool.eq_false_iff.mpr hcn),
          getCol_cons_of_neg c t n' (Bool.eq_false_iff.mpr hcn)]
        exact ih

theorem getCol_setCol_ne (cols : List (String × List Value)) (name : String)
    (vs : List Value) (n' : String) (h : n' ≠ name) :
    getCol (setCol cols name vs) n' = getCol cols n' := by
  unfold setCol
  split
  · exact getCol_mapSet_ne cols name vs n' h
  · rw [getCol_append]
    have hsingle : getCol [(name, vs)] n' = none := by
      simp only [getCol, List.find?_cons, List.find?_nil]
      rw [show ((name, vs).1 == n') = false by
        simp only [beq_eq_false_iff_ne]
        exact fun hq => h hq.symm]
      rfl
    rw [hsingle]
    cases getCol cols n' <;> rfl

theorem any_of_getCol (cols : List (String × List Value)) (n : String)
    (vs : List Value) (h : getCol cols n = some vs) :
    cols.any (fun c => c.1 == n) = true := by
  unfold getCol at h
  cases hfind : List.find? (fun c => c.1 == n) cols with
  | none => rw [hfind] at h; exact Option.noConfusion h
  | some c =>
    have hp := List.find?_some hfind
    have hm : c ∈ cols := List.mem_of_find?_eq_some hfind
    exact List.any_eq_true.mpr ⟨c, hm, hp⟩

theorem ite_rescale_of_no_num (m : ℚ) (vs : List Value)
    (hstr : vs.all (fun v => !(isNum v)) = true) :
    (if isNumericCol vs then rescaleCol m vs else vs) = vs := by
  cases vs with
  | nil => simp [isNumericCol, rescaleCol]
  | cons v t =>
    have hv : isNum v = false := by
      have := List.all_eq_true.mp hstr v (List.mem_cons_self v t)
      simpa using this
    rw [if_neg (by simp [isNumericCol, hv])]

/-- When a table carries an `image_file` column holding no numeric cell
and any `thumbnail` column, the normalizer succeeds and its output
carries the same `image_file` column. -/
theorem normalize_keeps_image_file (df2 : DataFrame) (m : ℚ)
    (names : List Value)
    (hif : getCol df2.cols "image_file" = some names)
    (th : List Value) (hth : getCol df2.cols "thumbnail" = some th)
    (hstr : names.all (fun v => !(isNum v)) = true) :
    ∃ out, normalizeNumericColumns df2 m = some out ∧
      getCol out.cols "image_file" = some names := by
  by_cases hempty : (df2.cols.filter (fun c => isNumericCol c.2)).isEmpty = true
  · refine ⟨df2, ?_, hif⟩
    unfold normalizeNumericColumns
    rw [if_pos hempty]
  · have hgthW : getCol (setCol (df2.cols.map (rescEntry m)) "id"
        (df2.index.map Value.num)) "thumbnail"
        = some (if isNumericCol th then rescaleCol m th else th) := by
      rw [getCol_setCol_ne _ _ _ _ (by decide), getCol_map_rescEntry, hth]
      rfl
    have hgimW : getCol (setCol (df2.cols.map (rescEntry m)) "id"
        (df2.index.map Value.num)) "image_file" = some names := by
      rw [getCol_setCol_ne _ _ _ _ (by decide), getCol_map_rescEntry, hif]
      show some (if isNumericCol names then rescaleCol m names else names)
        = some names
      rw [ite_rescale_of_no_num m names hstr]
    have hempty' : (df2.cols.filter (fun c => isNumericCol c.2)).isEmpty
        = false := Bool.eq_false_iff.mpr hempty
    refine ⟨⟨df2.index, setCol (setCol ((setCol (df2.cols.map (rescEntry m))
        "id" (df2.index.map Value.num)).filter (fun c => isNumericCol c.2))
        "thumbnail" (if isNumericCol th then rescaleCol m th else th))
        "image_file" names⟩, ?_, ?_⟩
    · simp only [normalizeNumericColumns, hempty', Bool.false_eq_true,
        if_false, hgthW, hgimW]
    · exact getCol_setCol_self _ _ _

/-! ### Helper lemmas for the enumeration order of `_get_image_files` -/

theorem filter_or_perm {α : Type} (p q : α → Bool) (files : List α)
    (h : ∀ f ∈ files, ¬(p f = true ∧ q f = true)) :
    (files.filter (fun f => p f || q f)).Perm
      (files.filter p ++ files.filter q) := by
  induction files with
  | nil => simp
  | cons f fs ih =>
    have h' : ∀ g ∈ fs, ¬(p g = true ∧ q g = true) :=
      fun g hg => h g (List.mem_cons_of_mem f hg)
    by_cases hp : p f = true
    · have hq : q f = false := by
        cases hqq : q f
        · rfl
        · exact absurd ⟨hp, hqq⟩ (h f (List.mem_cons_self f fs))
      simp only [List.filter_cons, hp, hq, Bool.true_or, if_true,
        Bool.false_eq_true, if_false, List.cons_append]
      exact (ih h').cons f
    · have hp' : p f = false := Bool.eq_false_iff.mpr hp
      by_cases hq : q f = true
      · simp only [List.filter_cons, hp', hq, Bool.false_or, if_true,
          Bool.false_eq_true, if_false]
        exact ((ih h').cons f).trans List.perm_middle.symm
      · have hq' : q f = false := Bool.eq_false_iff.mpr hq
        simp only [List.filter_cons, hp', hq', Bool.false_or,
          Bool.false_eq_true, if_false]
        exact ih h'

theorem two_exts_two_matches (L : List String) (hnd : L.Nodup)
    (e₁ e₂ : String) (h1 : e₁ ∈ L) (h2 : e₂ ∈ L) (hne : e₁ ≠ e₂)
    (f : String) (hf1 : hasExt f e₁ = true) (hf2 : hasExt f e₂ = true) :
    2 ≤ (L.filter (fun e => hasExt f e)).length := by
  have m1 : e₁ ∈ L.filter (fun e => hasExt f e) := List.mem_filter.mpr ⟨h1, hf1⟩
  have m2 : e₂ ∈ L.filter (fun e => hasExt f e) := List.mem_filter.mpr ⟨h2, hf2⟩
  have hnd' : (L.filter (fun e => hasExt f e)).Nodup := hnd.filter _
  have hsub : ({e₁, e₂} : Finset String)
      ⊆ (L.filter (fun e => hasExt f e)).toFinset := by
    intro x hx
    rcases Finset.mem_insert.mp hx with rfl | hx
    · exact List.mem_toFinset.mpr m1
    · rw [Finset.mem_singleton] at hx
      subst hx
      exact List.mem_toFinset.mpr m2
  calc 2 = ({e₁, e₂} : Finset String).card := (Finset.card_pair hne).symm
    _ ≤ (L.filter (fun e => hasExt f e)).toFinset.card := Finset.card_le_card hsub
    _ = (L.filter (fun e => hasExt f e)).length := List.toFinset_card_of_nodup hnd'

theorem hx_tail (files : List String) (e : String) (es : List String)
    (hx : ∀ f ∈ files, ((e :: es).filter (fun x => hasExt f x)).length ≤ 1) :
    ∀ f ∈ files, (es.filter (fun x => hasExt f x)).length ≤ 1 := by
  intro f hf
  have := hx f hf
  rw [List.filter_cons] at this
  by_cases h : hasExt f e = true
  · rw [if_pos h] at this
    simp only [List.length_cons] at this
    omega
  · rw [if_neg h] at this
    exact this

theorem flatMap_filter_perm (L : List String) (hnd : L.Nodup)
    (files : List String)
    (hx : ∀ f ∈ files, (L.filter (fun e => hasExt f e)).length ≤ 1) :
    (L.flatMap (fun e => files.filter (fun f => hasExt f e))).Perm
      (files.filter (fun f => L.any (fun e => hasExt f e))) := by
  induction L with
  | nil => simp
  | cons e es ih =>
    have hnd2 := List.nodup_cons.mp hnd
    have hdisj : ∀ f ∈ files,
        ¬(hasExt f e = true ∧ es.any (fun x => hasExt f x) = true) := by
      rintro f hf ⟨hfe, hfes⟩
      rcases List.any_eq_true.mp hfes with ⟨e', he', hfe'⟩
      have hnee : e ≠ e' := fun hq => hnd2.1 (hq ▸ he')
      have := two_exts_two_matches (e :: es) hnd e e'
        (List.mem_cons_self e es) (List.mem_cons_of_mem e he') hnee f hfe hfe'
      exact absurd (hx f hf) (by omega)
    have hstep : (files.filter (fun f => hasExt f e || es.any (fun x => hasExt f x))).Perm
        (files.filter (fun f => hasExt f e)
          ++ files.filter (fun f => es.any (fun x => hasExt f x))) :=
      filter_or_perm _ _ files hdisj
    have ihh := ih hnd2.2 (hx_tail files e es hx)
    simp only [List.any_cons, List.flatMap_cons]
    exact (ihh.append_left _).trans hstep.symm

theorem flatMap_filter_group (L : List String) (hnd : L.Nodup)
    (files : List String)
    (hx : ∀ f ∈ files, (L.filter (fun e => hasExt f e)).length ≤ 1)
    (ext : String) (hext : ext ∈ L) :
    (L.flatMap (fun e => files.filter (fun f => hasExt f e))).filter
        (fun f => hasExt f ext)
      = files.filter (fun f => hasExt f ext) := by
  induction L with
  | nil => cases hext
  | cons e es ih =>
    have hnd2 := List.nodup_cons.mp hnd
    rw [List.flatMap_cons, List.filter_append]
    rcases List.mem_cons.mp hext with rfl | hext'
    · have hA : (files.filter (fun f => hasExt f ext)).filter
          (fun f => hasExt f ext) = files.filter (fun f => hasExt f ext) := by
        rw [List.filter_filter]
        exact List.filter_congr (fun f _ => Bool.and_self _)
      have hB : (es.flatMap (fun x => files.filter (fun f => hasExt f x))).filter
          (fun f => hasExt f ext) = [] := by
        rw [List.filter_eq_nil]
        intro f hf hfext
        rcases List.mem_flatMap.mp hf with ⟨e', he', hf'⟩
        rcases List.mem_filter.mp hf' with ⟨hffiles, hfe'⟩
        have hnee : ext ≠ e' := fun hq => hnd2.1 (hq ▸ he')
        have := two_exts_two_matches (ext :: es) hnd ext e'
          (List.mem_cons_self ext es) (List.mem_cons_of_mem ext he') hnee
          f hfext hfe'
        exact absurd (hx f hffiles) (by omega)
      rw [hA, hB, List.append_nil]
    · have hne : ext ≠ e := fun hq => hnd2.1 (hq ▸ hext')
      have hA : (files.filter (fun f => hasExt f e)).filter
          (fun f => hasExt f ext) = [] := by
        rw [List.filter_eq_nil]
        intro f hf hfext
        rcases List.mem_filter.mp hf with ⟨hffiles, hfe⟩
        have := two_exts_two_matches (e :: es) hnd ext e
          (List.mem_cons_of_mem e hext') (List.mem_cons_self e es) hne
          f hfext hfe
        exact absurd (hx f hffiles) (by omega)
      rw [hA, List.nil_append]
      exact ih hnd2.2 (hx_tail files e es hx) hext'

/-- Counterexample to C8: the claim says recognized files are
enumerated exactly in directory-listing order with no grouping by
extension.  For the listing `["a.png", "b.tif"]`, `_get_image_files`
returns `["b.tif", "a.png"]` (all `*.tif` files first, since the code
globs extension by extension over the allow-list), which differs from
the listing-order enumeration `["a.png", "b.tif"]`. -/
theorem get_image_files_groups_by_extension :
    getImageFiles ["a.png", "b.tif"] = ["b.tif", "a.png"] ∧
    ["a.png", "b.tif"].filter isRecognizedImageFile = ["a.png", "b.tif"] ∧
    (["b.tif", "a.png"] : List String) ≠ ["a.png", "b.tif"] :=
  ⟨by decide, by decide, by decide⟩

/-- C8 (amended): `_get_image_files` enumerates the recognized files
grouped by extension in allow-list order (tif, tiff, png, jpeg, jpg);
within each extension group the directory-listing order is preserved,
and overall the enumeration is a permutation of the recognized files —
but not, in general, the directory-listing order itself.
`apply_to_images` then orders its rows by this enumeration
(featurizer.py line 173).  The hypothesis — no file name matches two
different allow-list extensions — holds for every actual file name,
since the five patterns are mutually exclusive suffixes. -/
theorem get_image_files_amended (files : List String)
    (hx : ∀ f ∈ files,
      (VALID_IMAGE_FORMATS.filter (fun ext => hasExt f ext)).length ≤ 1) :
    (getImageFiles files).Perm (files.filter isRecognizedImageFile) ∧
    ∀ ext ∈ VALID_IMAGE_FORMATS,
      (getImageFiles files).filter (fun f => hasExt f ext)
        = files.filter (fun f => hasExt f ext) := by
  have hnd : VALID_IMAGE_FORMATS.Nodup := by decide
  constructor
  · exact flatMap_filter_perm VALID_IMAGE_FORMATS hnd files hx
  · intro ext hext
    exact flatMap_filter_group VALID_IMAGE_FORMATS hnd files hx ext hext

/-- Witness for the amended C8 at the listing `["a.png", "b.tif"]`. -/
theorem get_image_files_amended_witness :
    (∀ f ∈ (["a.png", "b.tif"] : List String),
      (VALID_IMAGE_FORMATS.filter (fun ext => hasExt f ext)).length ≤ 1) ∧
    ((getImageFiles ["a.png", "b.tif"]).Perm
       (["a.png", "b.tif"].filter isRecognizedImageFile) ∧
     ∀ ext ∈ VALID_IMAGE_FORMATS,
       (getImageFiles ["a.png", "b.tif"]).filter (fun f => hasExt f ext)
         = ["a.png", "b.tif"].filter (fun f => hasExt f ext)) :=
  ⟨by decide, get_image_files_amended ["a.png", "b.tif"] (by decide)⟩

/-- Counterexample to C5: the claim says that whenever both a filename
column and an array column are supplied, the array column is ignored
and the filename column resolves the rows' images, regardless of the
output directory's contents.  With an *empty* directory the code does
the opposite: it warns that the provided `filename_column` will be
ignored, saves the array column's image under the sequential name
`000.png`, and binds `image_file` to `000.png` rather than to the
filename column's `a.png`. -/
theorem images_df_empty_dir_ignores_filename_column :
    (applyFromImagesDf exDfC5 (some []) (some "fn") (some "img")).warnings
      = ["filename_column ignored"] ∧
    (applyFromImagesDf exDfC5 (some []) (some "fn") (some "img")).writes
      = ["000.png", "features.csv"] ∧
    (match (applyFromImagesDf exDfC5 (some []) (some "fn") (some "img")).result
        with
      | .ok dfN => getCol dfN.cols "image_file"
      | .error _ => none) = some [Value.str "000.png"] ∧
    getCol exDfC5.cols "fn" = some [Value.str "a.png"] ∧
    ("a.png" : String) ≠ "000.png" :=
  ⟨by decide, by decide, by decide, by decide, by decide⟩

/-- C5 (amended): when the output directory already contains recognized
images, the filename column resolves the rows' images and the array
column is ignored with a warning; when the output directory contains
none, the array column's images are saved under sequential names, and
the *filename* column is the one ignored with a warning. -/
theorem images_df_both_columns_amended (df : DataFrame) (fc ic : String)
    (filesA filesB : List String) (names arrs : List Value)
    (hA : getImageFiles filesA ≠ [])
    (hnames : getCol df.cols fc = some names)
    (hmem : names.all (fun v =>
      match v with
      | .str s => (getImageFiles filesA).contains s
      | .num _ => false) = true)
    (harrs : getCol df.cols ic = some arrs)
    (hB : getImageFiles filesB = []) :
    ((applyFromImagesDf df (some filesA) (some fc) (some ic)).warnings
        = ["image_column ignored"] ∧
     (match (applyFromImagesDf df (some filesA) (some fc) (some ic)).result
         with
       | .ok dfN => getCol dfN.cols "image_file"
       | .error _ => none) = some names) ∧
    ((applyFromImagesDf df (some filesB) (some fc) (some ic)).warnings
        = ["filename_column ignored"] ∧
     (match (applyFromImagesDf df (some filesB) (some fc) (some ic)).result
         with
       | .ok dfN => getCol dfN.cols "image_file"
       | .error _ => none)
       = some ((List.range arrs.length).map
           (fun i => Value.str (fileName3 i)))) := by
  have hstrA : names.all (fun v => !(isNum v)) = true := by
    rw [List.all_eq_true] at hmem ⊢
    intro v hv
    have := hmem v hv
    cases v with
    | str s => rfl
    | num q => exact absurd this (by simp)
  have hcheckA : names.any (fun v =>
      match v with
      | .str s => !((getImageFiles filesA).contains s)
      | .num _ => true) = false := by
    rw [List.any_eq_false]
    intro v hv
    have := List.all_eq_true.mp hmem v hv
    cases v with
    | str s => simp_all
    | num q => exact absurd this (by simp)
  constructor
  · -- non-empty directory: filename column used, image column ignored
    have hsetup : setupImagesPath (some filesA) false false = .ok filesA := by
      simp [setupImagesPath]
    obtain ⟨out, hnorm, hgif⟩ := normalize_keeps_image_file
      ⟨df.index, setCol (setCol df.cols "image_file" names) "thumbnail"
        (names.map encodeThumbVal)⟩ (1/5) names
      (by
        show getCol (setCol (setCol df.cols "image_file" names) "thumbnail"
          (names.map encodeThumbVal)) "image_file" = some names
        rw [getCol_setCol_ne _ _ _ _ (by decide), getCol_setCol_self])
      (names.map encodeThumbVal)
      (by
        show getCol (setCol (setCol df.cols "image_file" names) "thumbnail"
          (names.map encodeThumbVal)) "thumbnail"
          = some (names.map encodeThumbVal)
        rw [getCol_setCol_self])
      hstrA
    have hrun : applyFromImagesDf df (some filesA) (some fc) (some ic)
        = ⟨["features.csv"], ["image_column ignored"], .ok out⟩ := by
      simp only [applyFromImagesDf, hsetup, List.length_pos.mpr hA, if_pos,
        Option.isSome_some, if_true, hnames, Option.getD_some, hcheckA,
        Bool.false_eq_true, if_false, hnorm]
    rw [hrun]
    refine ⟨rfl, ?_⟩
    show getCol out.cols "image_file" = some names
    exact hgif
  · -- empty directory: array column used, filename column ignored
    have hsetup : setupImagesPath (some filesB) false false = .ok filesB := by
      simp [setupImagesPath]
    obtain ⟨out, hnorm, hgif⟩ := normalize_keeps_image_file
      ⟨df.index, setCol (setCol df.cols "image_file"
          (((List.range arrs.length).map fileName3).map Value.str))
        "thumbnail" (arrs.map encodeThumbVal)⟩ (1/5)
      (((List.range arrs.length).map fileName3).map Value.str)
      (by
        show getCol (setCol (setCol df.cols "image_file"
            (((List.range arrs.length).map fileName3).map Value.str))
          "thumbnail" (arrs.map encodeThumbVal)) "image_file"
          = some (((List.range arrs.length).map fileName3).map Value.str)
        rw [getCol_setCol_ne _ _ _ _ (by decide), getCol_setCol_self])
      (arrs.map encodeThumbVal)
      (by
        show getCol (setCol (setCol df.cols "image_file"
            (((List.range arrs.length).map fileName3).map Value.str))
          "thumbnail" (arrs.map encodeThumbVal)) "thumbnail"
          = some (arrs.map encodeThumbVal)
        rw [getCol_setCol_self])
      (by
        rw [List.all_eq_true]
        intro v hv
        rcases List.mem_map.mp hv with ⟨s, _, rfl⟩
        rfl)
    have hrun : applyFromImagesDf df (some filesB) (some fc) (some ic)
        = ⟨((List.range arrs.length).map fileName3) ++ ["features.csv"],
           ["filename_column ignored"], .ok out⟩ := by
      simp only [applyFromImagesDf, hsetup, hB, List.length_nil,
        Nat.lt_irrefl, if_false, Option.isSome_some, if_true, harrs,
        Option.getD_some, hnorm]
    rw [hrun]
    refine ⟨rfl, ?_⟩
    show getCol out.cols "image_file"
      = some ((List.range arrs.length).map (fun i => Value.str (fileName3 i)))
    rw [hgif, List.map_map]
    rfl

/-- Witness for the amended C5: `exDfC5` against a directory holding
`a.png` (part one) and against an empty directory (part two). -/
theorem images_df_both_columns_amended_witness :
    (getImageFiles ["a.png"] ≠ [] ∧
     getCol exDfC5.cols "fn" = some [Value.str "a.png"] ∧
     getImageFiles [] = []) ∧
    (((applyFromImagesDf exDfC5 (some ["a.png"]) (some "fn")
          (some "img")).warnings = ["image_column ignored"] ∧
      (match (applyFromImagesDf exDfC5 (some ["a.png"]) (some "fn")
            (some "img")).result with
        | .ok dfN => getCol dfN.cols "image_file"
        | .error _ => none) = some [Value.str "a.png"]) ∧
     ((applyFromImagesDf exDfC5 (some []) (some "fn")
          (some "img")).warnings = ["filename_column ignored"] ∧
      (match (applyFromImagesDf exDfC5 (some []) (some "fn")
            (some "img")).result with
        | .ok dfN => getCol dfN.cols "image_file"
        | .error _ => none)
        = some ((List.range ([Value.str "arrA"] : List Value).length).map
            (fun i => Value.str (fileName3 i))))) :=
  ⟨⟨by decide, by decide, by decide⟩,
   images_df_both_columns_amended exDfC5 "fn" "img" ["a.png"] []
     [Value.str "a.png"] [Value.str "arrA"]
     (by decide) (by decide) (by decide) (by decide) (by decide)⟩

/-! ### Helper lemmas for the label-set check of Variant D -/

theorem mem_npUniqueNat (xs : List Nat) (a : Nat) :
    a ∈ npUniqueNat xs ↔ a ∈ xs := by
  unfold npUniqueNat
  rw [List.mem_dedup]
  exact (List.perm_insertionSort _ xs).mem_iff

theorem mem_npUniqueQ (xs : List ℚ) (a : ℚ) :
    a ∈ npUniqueQ xs ↔ a ∈ xs := by
  unfold npUniqueQ
  rw [List.mem_dedup]
  exact (List.perm_insertionSort _ xs).mem_iff

theorem mem_posNat (xs : List Nat) (a : Nat) :
    a ∈ (npUniqueNat xs).filter (fun v => v ≠ 0) ↔ a ∈ xs ∧ a ≠ 0 := by
  rw [List.mem_filter, mem_npUniqueNat]
  simp

theorem mem_posQ (xs : List ℚ) (a : ℚ) :
    a ∈ (npUniqueQ xs).filter (fun v => v ≠ 0) ↔ a ∈ xs ∧ a ≠ 0 := by
  rw [List.mem_filter, mem_npUniqueQ]
  simp

theorem nodup_posNat (xs : List Nat) :
    ((npUniqueNat xs).filter (fun v => v ≠ 0)).Nodup :=
  (List.nodup_dedup _).filter _

theorem nodup_posQ (xs : List ℚ) :
    ((npUniqueQ xs).filter (fun v => v ≠ 0)).Nodup :=
  (List.nodup_dedup _).filter _

theorem num_mem_of_mem_toNums (vs : List Value) (q : ℚ)
    (h : q ∈ toNums vs) : Value.num q ∈ vs := by
  rcases List.mem_filterMap.mp h with ⟨v, hv, hveq⟩
  cases v with
  | num p =>
    have : p = q := by injection hveq
    rw [← this]
    exact hv
  | str s => exact Option.noConfusion hveq

/-- Count-plus-membership form of the Variant D label check, as an
iff against plain set equality: the two checks of the code (equal
counts of distinct non-zero values, and membership of every raw table
label among the image's positive labels) pass exactly when the set of
table label values equals the set of positive image labels. -/
theorem label_check_iff (img : List Nat) (lvs : List ℚ) :
    (((npUniqueNat img).filter (fun v => v ≠ 0)).length
        = ((npUniqueQ lvs).filter (fun v => v ≠ 0)).length
      ∧ ∀ v ∈ lvs, ∃ u ∈ (npUniqueNat img).filter (fun v => v ≠ 0),
          (u : ℚ) = v)
    ↔ (∀ v : ℚ, v ∈ lvs ↔ ∃ u ∈ img, u ≠ 0 ∧ (u : ℚ) = v) := by
  have hDnd : ((npUniqueQ lvs).filter (fun v => v ≠ 0)).Nodup := nodup_posQ lvs
  have hUnd : ((npUniqueNat img).filter (fun v => v ≠ 0)).Nodup :=
    nodup_posNat img
  have hinj : Function.Injective (fun u : ℕ => (u : ℚ)) :=
    fun a b h => by simpa using h
  have hcastnd : (List.map (fun u : ℕ => (u : ℚ))
      ((npUniqueNat img).filter (fun v => v ≠ 0))).Nodup :=
    List.Nodup.map hinj hUnd
  constructor
  · rintro ⟨h1, h2⟩ v
    constructor
    · intro hv
      obtain ⟨u, hu, hcast⟩ := h2 v hv
      obtain ⟨humem, hune⟩ := (mem_posNat img u).mp hu
      exact ⟨u, humem, hune, hcast⟩
    · rintro ⟨u, humem, hune, rfl⟩
      have hDsub : ((npUniqueQ lvs).filter (fun v => v ≠ 0))
          ⊆ List.map (fun u : ℕ => (u : ℚ))
              ((npUniqueNat img).filter (fun v => v ≠ 0)) := by
        intro d hd
        obtain ⟨hdl, _⟩ := (mem_posQ lvs d).mp hd
        obtain ⟨u', hu', hcast'⟩ := h2 d hdl
        exact List.mem_map.mpr ⟨u', hu', hcast'⟩
      have hperm := (hDnd.subperm hDsub).perm_of_length_le
        (by rw [List.length_map]; omega)
      have hmemc : (u : ℚ) ∈ List.map (fun u : ℕ => (u : ℚ))
          ((npUniqueNat img).filter (fun v => v ≠ 0)) :=
        List.mem_map_of_mem _ ((mem_posNat img u).mpr ⟨humem, hune⟩)
      exact ((mem_posQ lvs _).mp (hperm.mem_iff.mpr hmemc)).1
  · intro hset
    have hDU : ∀ x, x ∈ (npUniqueQ lvs).filter (fun v => v ≠ 0)
        ↔ x ∈ List.map (fun u : ℕ => (u : ℚ))
            ((npUniqueNat img).filter (fun v => v ≠ 0)) := by
      intro x
      constructor
      · intro hx
        obtain ⟨hxl, _⟩ := (mem_posQ lvs x).mp hx
        obtain ⟨u, humem, hune, hcast⟩ := (hset x).mp hxl
        exact List.mem_map.mpr ⟨u, (mem_posNat img u).mpr ⟨humem, hune⟩, hcast⟩
      · intro hx
        obtain ⟨u, hu, rfl⟩ := List.mem_map.mp hx
        obtain ⟨humem, hune⟩ := (mem_posNat img u).mp hu
        have hin : (u : ℚ) ∈ lvs := (hset _).mpr ⟨u, humem, hune, rfl⟩
        exact (mem_posQ lvs _).mpr ⟨hin, Nat.cast_ne_zero.mpr hune⟩
    constructor
    · have hperm := (List.perm_ext_iff_of_nodup hDnd hcastnd).mpr hDU
      have := hperm.length_eq
      rw [List.length_map] at this
      omega
    · intro v hv
      obtain ⟨u, humem, hune, hcast⟩ := (hset v).mp hv
      exact ⟨u, (mem_posNat img u).mpr ⟨humem, hune⟩, hcast⟩

/-- On an all-numeric label column, the raw-value membership loop of
the code passes exactly when every numeric label value has a matching
entry among the image's positive labels. -/
theorem valcheck_eq_false_iff (U : List Nat) (lvsV : List Value)
    (hnum : isNumericCol lvsV = true) :
    ((lvsV.any (fun v => !(U.any (fun u => v == Value.num (u : ℚ))))) = false)
    ↔ ∀ q ∈ toNums lvsV, ∃ u ∈ U, (u : ℚ) = q := by
  rw [List.any_eq_false]
  constructor
  · intro h q hq
    have hv : Value.num q ∈ lvsV := num_mem_of_mem_toNums lvsV q hq
    have hb := h (Value.num q) hv
    have hb' : U.any (fun u => Value.num q == Value.num (u : ℚ)) = true := by
      cases hu : U.any (fun u => Value.num q == Value.num (u : ℚ))
      · exact absurd (by rw [hu]; rfl) hb
      · rfl
    rcases List.any_eq_true.mp hb' with ⟨u, hu, hbeq⟩
    have : Value.num q = Value.num (u : ℚ) := eq_of_beq hbeq
    have : q = (u : ℚ) := by injection this
    exact ⟨u, hu, this.symm⟩
  · intro h v hv
    obtain ⟨q, rfl⟩ : ∃ q, v = Value.num q := by
      have := List.all_eq_true.mp hnum v hv
      cases v with
      | num q => exact ⟨q, rfl⟩
      | str s => simp [isNum] at this
    obtain ⟨u, hu, hcast⟩ := h q (mem_toNums lvsV q hv)
    intro hcontra
    have hfalse : U.any (fun u => Value.num q == Value.num (u : ℚ))
        = false := by
      cases hany : U.any (fun u => Value.num q == Value.num (u : ℚ))
      · rfl
      · rw [hany] at hcontra
        exact absurd hcontra (by decide)
    have := List.any_eq_false.mp hfalse u hu
    apply this
    rw [← hcast]
    simp

/-- Counterexample to C3: the claim says `LabelMismatch` is raised *iff*
the set of positive label values in the table differs from the set of
positive label values in the image.  For a table whose `label` column
is `[0, 1, 2]` and an image with pixel values `{0, 1, 2}`, both
positive sets are `{1, 2}` — yet the run raises `LabelMismatch`,
because the membership loop (lines 379–383) also tests the raw label
value `0` against the image's positive labels. -/
theorem label_check_rejects_matching_positive_sets :
    applyFromLabelImageDf exDfC3 (some []) [0, 1, 2]
      = ([], .error .labelMismatch) ∧
    ((npUniqueQ (toNums [Value.num 0, Value.num 1, Value.num 2])).filter
      (fun v => v ≠ 0)) = [1, 2] ∧
    List.map (fun u : ℕ => (u : ℚ))
      ((npUniqueNat [0, 1, 2]).filter (fun v => v ≠ 0)) = [1, 2] :=
  ⟨by decide, by decide, by decide⟩

/-- C3 (amended): for every run of `apply_from_label_image_df` on an
empty output directory and a table with an all-numeric `label` column,
the run raises `LabelMismatch` iff the set of **all** label values in
the table (zeros included) differs from the set of positive label
values in the labelled image; and when `LabelMismatch` is raised, it
is raised before any crop file or output file has been written. -/
theorem label_mismatch_iff_amended (df : DataFrame) (files : List String)
    (labelImage : List Nat) (lvs : List Value)
    (hemp : getImageFiles files = [])
    (hlab : getCol df.cols "label" = some lvs)
    (hnumlab : isNumericCol lvs = true) :
    ((applyFromLabelImageDf df (some files) labelImage).2
        = .error .labelMismatch
      ↔ ¬ (∀ v : ℚ, v ∈ toNums lvs ↔ ∃ u ∈ labelImage, u ≠ 0 ∧ (u : ℚ) = v)) ∧
    ((applyFromLabelImageDf df (some files) labelImage).2
        = .error .labelMismatch →
      (applyFromLabelImageDf df (some files) labelImage).1 = []) := by
  have hsetup : setupImagesPath (some files) true false = .ok files := by
    simp [setupImagesPath, hemp]
  have hany : df.cols.any (fun c => c.1 == "label") = true :=
    any_of_getCol _ _ _ hlab
  by_cases h1 : ((npUniqueNat labelImage).filter (fun v => v ≠ 0)).length
      = ((npUniqueQ (toNums lvs)).filter (fun v => v ≠ 0)).length
  · by_cases h2 : (lvs.any (fun v =>
        !(((npUniqueNat labelImage).filter (fun v => v ≠ 0)).any
          (fun u => v == Value.num (u : ℚ))))) = true
    · have hrun : applyFromLabelImageDf df (some files) labelImage
          = ([], .error .labelMismatch) := by
        simp only [applyFromLabelImageDf, hsetup, hany, if_true, hlab,
          Option.getD_some]
        rw [if_neg (fun hc => hc h1), if_pos h2]
      rw [hrun]
      refine ⟨?_, fun _ => rfl⟩
      constructor
      · intro _ hset
        have hpair := (label_check_iff labelImage (toNums lvs)).mpr hset
        have hvc := (valcheck_eq_false_iff _ lvs hnumlab).mpr hpair.2
        rw [hvc] at h2
        exact absurd h2 (by decide)
      · intro _
        rfl
    · have h2f : (lvs.any (fun v =>
          !(((npUniqueNat labelImage).filter (fun v => v ≠ 0)).any
            (fun u => v == Value.num (u : ℚ))))) = false :=
        Bool.eq_false_iff.mpr h2
      have hset : ∀ v : ℚ, v ∈ toNums lvs
          ↔ ∃ u ∈ labelImage, u ≠ 0 ∧ (u : ℚ) = v :=
        (label_check_iff labelImage (toNums lvs)).mp
          ⟨h1, (valcheck_eq_false_iff _ lvs hnumlab).mp h2f⟩
      have hne : (applyFromLabelImageDf df (some files) labelImage).2
          ≠ .error .labelMismatch := by
        simp only [applyFromLabelImageDf, hsetup, hany, if_true, hlab,
          Option.getD_some]
        rw [if_neg (fun hc => hc h1), if_neg h2]
        split
        · simp
        · simp
      refine ⟨?_, fun hcon => absurd hcon hne⟩
      constructor
      · intro hcon
        exact absurd hcon hne
      · intro hnot
        exact absurd hset hnot
  · have hrun : applyFromLabelImageDf df (some files) labelImage
        = ([], .error .labelMismatch) := by
      simp only [applyFromLabelImageDf, hsetup, hany, if_true, hlab,
        Option.getD_some]
      rw [if_pos h1]
    rw [hrun]
    refine ⟨?_, fun _ => rfl⟩
    constructor
    · intro _ hset
      exact h1 ((label_check_iff labelImage (toNums lvs)).mpr hset).1
    · intro _
      rfl

/-- Witness for the amended C3 at `exDfC3` (labels `{0, 1, 2}`) against
the image `[0, 1, 2]`. -/
theorem label_mismatch_iff_amended_witness :
    (getImageFiles [] = [] ∧
     getCol exDfC3.cols "label"
       = some [Value.num 0, Value.num 1, Value.num 2] ∧
     isNumericCol [Value.num 0, Value.num 1, Value.num 2] = true) ∧
    (((applyFromLabelImageDf exDfC3 (some []) [0, 1, 2]).2
        = .error .labelMismatch
      ↔ ¬ (∀ v : ℚ, v ∈ toNums [Value.num 0, Value.num 1, Value.num 2]
            ↔ ∃ u ∈ ([0, 1, 2] : List Nat), u ≠ 0 ∧ (u : ℚ) = v)) ∧
     ((applyFromLabelImageDf exDfC3 (some []) [0, 1, 2]).2
        = .error .labelMismatch →
      (applyFromLabelImageDf exDfC3 (some []) [0, 1, 2]).1 = [])) :=
  ⟨⟨by decide, by decide, by decide⟩,
   label_mismatch_iff_amended exDfC3 [] [0, 1, 2]
     [Value.num 0, Value.num 1, Value.num 2]
     (by decide) (by decide) (by decide)⟩

end Featurescope
